import Mathlib

/-!
Verification of the ROV SRS control library (ROV_SRS_Library.py).

The Python source is shallowly embedded below.  Floating point numbers are
modelled as rationals, GPIO levels as an inductive two-point type, pin names
as strings, the command-history deque as a list (index 0 = oldest entry),
and the blocking potentiometer-feedback loops as fuel-indexed iteration so
that non-termination is observable as fuel exhaustion for every fuel bound.
Python `is` comparisons on command integers (values -1..2, which CPython
interns) are embedded as equality.
-/

namespace SRS

/-- A GPIO output level, mirroring GPIO.HIGH / GPIO.LOW of Adafruit_BBIO. -/
inductive PinLevel where
  | low
  | high
deriving DecidableEq, Repr

/-- Default pin name used by total list lookups whose index is in range at
every call site reached by the embedded code. -/
def noPin : String := ("")

/-- Hardware constant LA_MAX_STROKE = 2.0 (Firgelli L16-P max stroke). -/
def LA_MAX_STROKE : ℚ := 2

/-- Hardware constant CS_STEP_ANGLE = 1.8 degrees. -/
def CS_STEP_ANGLE : ℚ := 9/5

/-- Command library for the linear actuator: rows Extend, Hold, Retract. -/
def LA_COMMANDS : List (List PinLevel) :=
  [[PinLevel.high, PinLevel.low],
   [PinLevel.low, PinLevel.low],
   [PinLevel.low, PinLevel.high]]

/-- Command library for the carousel stepper: Hold, Hold, one step CW. -/
def CS_COMMANDS : List (List PinLevel) :=
  [[PinLevel.low, PinLevel.low],
   [PinLevel.low, PinLevel.low],
   [PinLevel.low, PinLevel.high]]

/-- Command library for the shoulder stepper: step CCW, Hold, step CW. -/
def SS_COMMANDS : List (List PinLevel) :=
  [[PinLevel.high, PinLevel.high],
   [PinLevel.low, PinLevel.low],
   [PinLevel.low, PinLevel.high]]

/-!
## check_trend (ROV_SRS_Library.py lines 161-213)

The first while loop of check_trend walks `__start_index` upward from 0
while it stays below `len(hist) // 2` and `hist[__start_index]` equals
`hist[0]`; `startScan hist i k` runs that loop for `k` remaining iterations
starting at index `i` and returns the final `__start_flag`.  The second
loop walks `__end_index` downward from `len(hist) - 1` while it stays at or
above `len(hist) // 2` and `hist[__end_index]` equals the newest entry;
`endScan hist i k` is that loop with `k` remaining iterations.
-/

/-- Final value of the start flag of check_trend after the remaining `k`
iterations of its first while loop, scanning upward from index `i`. -/
def startScan (hist : List ℤ) : ℕ → ℕ → Bool
  | _, 0 => true
  | i, k + 1 =>
    if hist.getD i 0 = hist.getD 0 0 then startScan hist (i + 1) k else false

/-- Final value of the end flag of check_trend after the remaining `k`
iterations of its second while loop, scanning downward from index `i`. -/
def endScan (hist : List ℤ) : ℕ → ℕ → Bool
  | _, 0 => true
  | i, k + 1 =>
    if hist.getD i 0 = hist.getD (hist.length - 1) 0 then
      endScan hist (i - 1) k
    else false

/-- Embedding of check_trend.  The first loop performs `len // 2`
iterations at most (indices 0 to len/2 - 1), the second performs
`len - len // 2` iterations at most (indices len-1 down to len/2); the
final if/elif chain mirrors lines 207-213 of the source, with the trend
initialised to -1. -/
def check_trend (hist : List ℤ) (cont : Bool) : ℤ :=
  let n := hist.length
  let sflag := startScan hist 0 (n / 2)
  let eflag := endScan hist (n - 1) (n - n / 2)
  if cont && eflag then hist.getD (n - 1) 0
  else if sflag && eflag then
    if hist.getD 0 0 ≠ hist.getD (n - 1) 0 then hist.getD (n - 1) 0 else -1
  else -1

lemma startScan_eq_true (hist : List ℤ) :
    ∀ (k i : ℕ), startScan hist i k = true ↔
      ∀ m < k, hist.getD (i + m) 0 = hist.getD 0 0 := by
  intro k
  induction k with
  | zero => intro i; simp [startScan]
  | succ k ih =>
    intro i
    rw [startScan]
    by_cases h : hist.getD i 0 = hist.getD 0 0
    · rw [if_pos h, ih (i + 1)]
      constructor
      · intro hall m hm
        match m with
        | 0 => simpa using h
        | m + 1 =>
          have hm2 : m < k := by omega
          have := hall m hm2
          rwa [show i + 1 + m = i + (m + 1) by omega] at this
      · intro hall m hm
        have := hall (m + 1) (by omega)
        rwa [show i + (m + 1) = i + 1 + m by omega] at this
    · rw [if_neg h]
      refine iff_of_false (by simp) ?_
      intro hall
      exact h (by simpa using hall 0 (by omega))

lemma endScan_eq_true (hist : List ℤ) :
    ∀ (k i : ℕ), endScan hist i k = true ↔
      ∀ m < k, hist.getD (i - m) 0 = hist.getD (hist.length - 1) 0 := by
  intro k
  induction k with
  | zero => intro i; simp [endScan]
  | succ k ih =>
    intro i
    rw [endScan]
    by_cases h : hist.getD i 0 = hist.getD (hist.length - 1) 0
    · rw [if_pos h, ih (i - 1)]
      constructor
      · intro hall m hm
        match m with
        | 0 => simpa using h
        | m + 1 =>
          have := hall m (by omega)
          rwa [show i - 1 - m = i - (m + 1) by omega] at this
      · intro hall m hm
        have := hall (m + 1) (by omega)
        rwa [show i - (m + 1) = i - 1 - m by omega] at this
    · rw [if_neg h]
      refine iff_of_false (by simp) ?_
      intro hall
      exact h (by simpa using hall 0 (by omega))

/-- The start flag of check_trend is true iff the oldest half of the
history is uniformly the oldest entry. -/
lemma startFlag_iff (hist : List ℤ) :
    startScan hist 0 (hist.length / 2) = true ↔
      ∀ i < hist.length / 2, hist.getD i 0 = hist.getD 0 0 := by
  rw [startScan_eq_true]
  constructor
  · intro h i hi; simpa using h i hi
  · intro h m hm; simpa using h m hm

/-- The end flag of check_trend is true iff the newest half of the history
(indices len/2 .. len-1) is uniformly the newest entry. -/
lemma endFlag_iff (hist : List ℤ) (h1 : 1 ≤ hist.length) :
    endScan hist (hist.length - 1) (hist.length - hist.length / 2) = true ↔
      ∀ i < hist.length, hist.length / 2 ≤ i →
        hist.getD i 0 = hist.getD (hist.length - 1) 0 := by
  rw [endScan_eq_true]
  constructor
  · intro h i hi hi2
    have := h (hist.length - 1 - i) (by omega)
    rwa [show hist.length - 1 - (hist.length - 1 - i) = i by omega] at this
  · intro h m hm
    exact h (hist.length - 1 - m) (by omega) (by omega)

/-- C1 counterexample: in SplitCheck (50/50) mode the history
[0,0,0,2,2] does NOT return 2, contrary to the claim: the newest half of a
length-5 window is the three entries at indices 2..4, and index 2 holds 0,
so the end flag is cleared. -/
theorem check_trend_00022_not_two :
    check_trend [0, 0, 0, 2, 2] false ≠ 2 := by decide

/-- C1 amended: in SplitCheck (50/50) mode, updating with the length-5
history [0,0,0,2,2] (oldest entry first) returns Invalid (-1), not the
newest command: the newest half (indices 2..4) is not uniformly 2. -/
theorem check_trend_00022_invalid :
    check_trend [0, 0, 0, 2, 2] false = -1 := by decide

/-- C2: in SplitCheck mode (cont = False), for every history of length
n >= 2, check_trend returns the newest entry when all entries at indices
0..(n/2 - 1) equal the oldest entry, all entries at indices n/2..(n-1)
equal the newest entry, and the oldest entry differs from the newest;
otherwise it returns Invalid (-1).  In particular [0,0,2,2,2] returns 2
and the uniform [1,1,1,1,1] returns Invalid. -/
theorem check_trend_splitcheck_spec :
    (∀ hist : List ℤ, 2 ≤ hist.length →
      (((∀ i < hist.length / 2, hist.getD i 0 = hist.getD 0 0) ∧
          (∀ i < hist.length, hist.length / 2 ≤ i →
            hist.getD i 0 = hist.getD (hist.length - 1) 0) ∧
          hist.getD 0 0 ≠ hist.getD (hist.length - 1) 0) →
        check_trend hist false = hist.getD (hist.length - 1) 0) ∧
      (¬((∀ i < hist.length / 2, hist.getD i 0 = hist.getD 0 0) ∧
          (∀ i < hist.length, hist.length / 2 ≤ i →
            hist.getD i 0 = hist.getD (hist.length - 1) 0) ∧
          hist.getD 0 0 ≠ hist.getD (hist.length - 1) 0) →
        check_trend hist false = -1)) ∧
    check_trend [0, 0, 2, 2, 2] false = 2 ∧
    check_trend [1, 1, 1, 1, 1] false = -1 := by
  refine ⟨?_, by decide, by decide⟩
  intro hist h2
  constructor
  · rintro ⟨hA, hB, hC⟩
    have hs := (startFlag_iff hist).mpr hA
    have he := (endFlag_iff hist (by omega)).mpr hB
    have hC2 : ¬hist[0]?.getD 0 = hist[hist.length - 1]?.getD 0 := by
      simpa [List.getD] using hC
    simp [check_trend, hs, he, hC2]
  · intro hn
    by_cases hs : startScan hist 0 (hist.length / 2) = true
    · by_cases he : endScan hist (hist.length - 1)
          (hist.length - hist.length / 2) = true
      · by_cases hC : hist.getD 0 0 = hist.getD (hist.length - 1) 0
        · have hC2 : hist[0]?.getD 0 = hist[hist.length - 1]?.getD 0 := by
            simpa [List.getD] using hC
          simp [check_trend, hs, he, hC2]
        · exact absurd ⟨(startFlag_iff hist).mp hs,
            (endFlag_iff hist (by omega)).mp he, hC⟩ hn
      · have he2 : endScan hist (hist.length - 1)
            (hist.length - hist.length / 2) = false :=
          Bool.eq_false_iff.mpr he
        simp [check_trend, he2]
    · have hs2 : startScan hist 0 (hist.length / 2) = false :=
        Bool.eq_false_iff.mpr hs
      by_cases he : endScan hist (hist.length - 1)
          (hist.length - hist.length / 2) = true
      · simp [check_trend, hs2, he]
      · have he2 : endScan hist (hist.length - 1)
            (hist.length - hist.length / 2) = false :=
          Bool.eq_false_iff.mpr he
        simp [check_trend, hs2, he2]

/-- C2 witness: the SplitCheck characterization applied to the concrete
histories [1,1,0,0,0] (a genuine 2/3 transition, trend 0) and [2,2,2,2,2]
(uniform window, Invalid). -/
theorem check_trend_splitcheck_spec_witness :
    check_trend [1, 1, 0, 0, 0] false = 0 ∧
    check_trend [2, 2, 2, 2, 2] false = -1 :=
  ⟨(check_trend_splitcheck_spec.1 [1, 1, 0, 0, 0] (by decide)).1 (by decide),
   (check_trend_splitcheck_spec.1 [2, 2, 2, 2, 2] (by decide)).2 (by decide)⟩

/-- C3: in ContinuousCheck mode (cont = True), for every non-empty history
of length n, check_trend returns the newest entry when every entry at
indices n/2..(n-1) equals the newest entry, and Invalid (-1) otherwise;
in particular every length-5 history ending in 2,2,2 returns 2. -/
theorem check_trend_continuous_spec :
    (∀ hist : List ℤ, 1 ≤ hist.length →
      ((∀ i < hist.length, hist.length / 2 ≤ i →
          hist.getD i 0 = hist.getD (hist.length - 1) 0) →
        check_trend hist true = hist.getD (hist.length - 1) 0) ∧
      (¬(∀ i < hist.length, hist.length / 2 ≤ i →
          hist.getD i 0 = hist.getD (hist.length - 1) 0) →
        check_trend hist true = -1)) ∧
    ∀ a b : ℤ, check_trend [a, b, 2, 2, 2] true = 2 := by
  constructor
  · intro hist h1
    constructor
    · intro hB
      have he := (endFlag_iff hist h1).mpr hB
      simp [check_trend, he]
    · intro hn
      have he : endScan hist (hist.length - 1)
          (hist.length - hist.length / 2) = false :=
        Bool.eq_false_iff.mpr (fun h => hn ((endFlag_iff hist h1).mp h))
      simp [check_trend, he]
  · intro a b
    simp [check_trend, endScan]

/-- C3 witness: the ContinuousCheck characterization applied to the
concrete histories [0,1,2,2,2] (persistent newest half, trend 2) and
[2,2,0,0,2] (broken newest half, Invalid). -/
theorem check_trend_continuous_spec_witness :
    check_trend [0, 1, 2, 2, 2] true = 2 ∧
    check_trend [2, 2, 0, 0, 2] true = -1 :=
  ⟨(check_trend_continuous_spec.1 [0, 1, 2, 2, 2] (by decide)).1 (by decide),
   (check_trend_continuous_spec.1 [2, 2, 0, 0, 2] (by decide)).2 (by decide)⟩

/-!
## set_position and get_width widths (lines 79-81, 100-105, 145-159)

Both functions compute the same three derived widths from the expected
frequency, the max/min duty cycles and the tolerance percentage.
-/

/-- Derived constant WIDTH_MAX = (1/freq)*(max/100). -/
def widthMax (freq mx : ℚ) : ℚ := (1/freq) * (mx/100)

/-- Derived constant WIDTH_MIN = (1/freq)*(min/100). -/
def widthMin (freq mn : ℚ) : ℚ := (1/freq) * (mn/100)

/-- Derived constant WIDTH_TOL = (WIDTH_MAX - WIDTH_MIN)*(tol/100). -/
def widthTol (freq mx mn tol : ℚ) : ℚ :=
  (widthMax freq mx - widthMin freq mn) * (tol/100)

/-- Embedding of set_position (lines 145-159): the if/elif chain mapping a
pulse width to a position command, with cmd initialised to -1. -/
def set_position (width freq mx mn tol : ℚ) : ℤ :=
  if widthMax freq mx - widthTol freq mx mn tol ≤ width then 2
  else if widthMin freq mn + widthTol freq mx mn tol ≤ width then 1
  else if widthMin freq mn - widthTol freq mx mn tol ≤ width then 0
  else -1

/-- C7: set_position classifies top-down with first match winning: Max for
width >= WIDTH_MAX - TOL; Mid on [WIDTH_MIN + TOL, WIDTH_MAX - TOL); Min on
[WIDTH_MIN - TOL, WIDTH_MIN + TOL) when neither higher band matched; and
any width below WIDTH_MIN - TOL is Invalid.  The priority order holds even
when the bands overlap (tolerance at or above 50 percent). -/
theorem set_position_bands (freq mx mn tol width : ℚ)
    (hf : 0 < freq) (hmn : mn ≤ mx) (ht : 0 ≤ tol) :
    (set_position width freq mx mn tol = 2 ↔
      widthMax freq mx - widthTol freq mx mn tol ≤ width) ∧
    (set_position width freq mx mn tol = 1 ↔
      (widthMin freq mn + widthTol freq mx mn tol ≤ width ∧
        width < widthMax freq mx - widthTol freq mx mn tol)) ∧
    (set_position width freq mx mn tol = 0 ↔
      (widthMin freq mn - widthTol freq mx mn tol ≤ width ∧
        width < widthMin freq mn + widthTol freq mx mn tol ∧
        width < widthMax freq mx - widthTol freq mx mn tol)) ∧
    (width < widthMin freq mn - widthTol freq mx mn tol →
      set_position width freq mx mn tol = -1) := by
  have hp : (0:ℚ) < 1/freq := by positivity
  have hWW : widthMin freq mn ≤ widthMax freq mx := by
    unfold widthMin widthMax
    apply mul_le_mul_of_nonneg_left _ hp.le
    linarith
  have hT : 0 ≤ widthTol freq mx mn tol := by
    unfold widthTol
    apply mul_nonneg (by linarith) (by linarith)
  unfold set_position
  split_ifs with h1 h2 h3
  · exact ⟨⟨fun _ => h1, fun _ => rfl⟩,
      iff_of_false (by norm_num) (fun hc => absurd h1 (not_le.mpr hc.2)),
      iff_of_false (by norm_num) (fun hc => absurd h1 (not_le.mpr hc.2.2)),
      fun hc => absurd h1 (not_le.mpr (by linarith))⟩
  · exact ⟨iff_of_false (by norm_num) h1,
      iff_of_true rfl ⟨h2, not_le.mp h1⟩,
      iff_of_false (by norm_num) (fun hc => absurd h2 (not_le.mpr hc.2.1)),
      fun hc => absurd h2 (not_le.mpr (by linarith))⟩
  · exact ⟨iff_of_false (by norm_num) h1,
      iff_of_false (by norm_num) (fun hc => h2 hc.1),
      iff_of_true rfl ⟨h3, not_le.mp h2, not_le.mp h1⟩,
      fun hc => absurd h3 (not_le.mpr hc)⟩
  · exact ⟨iff_of_false (by norm_num) h1,
      iff_of_false (by norm_num) (fun hc => h2 hc.1),
      iff_of_false (by norm_num) (fun hc => h3 hc.1),
      fun _ => rfl⟩

/-- C7 witness: the band characterization at the configuration of
ROV_SRS_Main.py (70 Hz, duty 14.1/6.9 percent, 25 percent tolerance) and
the concrete width 1/500 s, which lies in the Max band. -/
theorem set_position_bands_witness :
    (set_position (1/500) 70 (141/10) (69/10) 25 = 2 ↔
      widthMax 70 (141/10) - widthTol 70 (141/10) (69/10) 25 ≤ 1/500) ∧
    (set_position (1/500) 70 (141/10) (69/10) 25 = 1 ↔
      (widthMin 70 (69/10) + widthTol 70 (141/10) (69/10) 25 ≤ 1/500 ∧
        (1/500 : ℚ) < widthMax 70 (141/10) - widthTol 70 (141/10) (69/10) 25)) ∧
    (set_position (1/500) 70 (141/10) (69/10) 25 = 0 ↔
      (widthMin 70 (69/10) - widthTol 70 (141/10) (69/10) 25 ≤ 1/500 ∧
        (1/500 : ℚ) < widthMin 70 (69/10) + widthTol 70 (141/10) (69/10) 25 ∧
        (1/500 : ℚ) < widthMax 70 (141/10) - widthTol 70 (141/10) (69/10) 25)) ∧
    ((1/500 : ℚ) < widthMin 70 (69/10) - widthTol 70 (141/10) (69/10) 25 →
      set_position (1/500) 70 (141/10) (69/10) 25 = -1) :=
  set_position_bands 70 (141/10) (69/10) 25 (1/500)
    (by norm_num) (by norm_num) (by norm_num)

/-!
## Fuel-indexed while loops for the get_width correction (lines 100-105)

Each of the three correction loops of get_width is an instance of a
guarded update repeated while a rational condition holds.  whileF runs the
loop for at most a given number of iterations and returns none when the
fuel runs out with the condition still true, so that non-termination of
the Python loop is visible as failure at every fuel bound.
-/

/-- Run the loop body f while the condition c holds, for at most the given
number of iterations; none means the loop was still running. -/
def whileF (c : ℚ → Bool) (f : ℚ → ℚ) : ℕ → ℚ → Option ℚ
  | 0, w => if c w then none else some w
  | n + 1, w => if c w then whileF c f n (f w) else some w

lemma whileF_of_false {c : ℚ → Bool} {f : ℚ → ℚ} {w : ℚ} (h : c w = false) :
    ∀ n, whileF c f n w = some w
  | 0 => by simp [whileF, h]
  | n + 1 => by simp [whileF, h]

lemma whileF_exit {c : ℚ → Bool} {f : ℚ → ℚ} :
    ∀ {n : ℕ} {w v : ℚ}, whileF c f n w = some v → c v = false := by
  intro n
  induction n with
  | zero =>
    intro w v h
    cases hc : c w
    · simp [whileF, hc] at h
      exact h ▸ hc
    · simp [whileF, hc] at h
  | succ n ih =>
    intro w v h
    cases hc : c w
    · simp [whileF, hc] at h
      exact h ▸ hc
    · simp [whileF, hc] at h
      exact ih h

lemma whileF_steps {c : ℚ → Bool} {f : ℚ → ℚ} :
    ∀ {n : ℕ} {w v : ℚ}, whileF c f n w = some v → ∃ k : ℕ, v = f^[k] w := by
  intro n
  induction n with
  | zero =>
    intro w v h
    cases hc : c w
    · simp [whileF, hc] at h
      exact ⟨0, h.symm⟩
    · simp [whileF, hc] at h
  | succ n ih =>
    intro w v h
    cases hc : c w
    · simp [whileF, hc] at h
      exact ⟨0, h.symm⟩
    · simp [whileF, hc] at h
      obtain ⟨k, hk⟩ := ih h
      exact ⟨k + 1, by rw [Function.iterate_succ_apply]; exact hk⟩

lemma whileF_mono {c : ℚ → Bool} {f : ℚ → ℚ} :
    ∀ (m : ℕ) {n : ℕ} {w v : ℚ}, m ≤ n →
      whileF c f m w = some v → whileF c f n w = some v := by
  intro m
  induction m with
  | zero =>
    intro n w v _ h
    cases hc : c w
    · simp [whileF, hc] at h
      rw [h] at hc ⊢
      exact whileF_of_false hc n
    · simp [whileF, hc] at h
  | succ m ih =>
    intro n w v hmn h
    cases hc : c w
    · simp [whileF, hc] at h
      rw [h] at hc ⊢
      exact whileF_of_false hc n
    · simp [whileF, hc] at h
      obtain ⟨k, rfl⟩ : ∃ k, n = k + 1 := ⟨n - 1, by omega⟩
      simp [whileF, hc]
      exact ih (by omega) h

lemma whileF_total {c : ℚ → Bool} {f : ℚ → ℚ} (μ : ℚ → ℕ)
    (hμ : ∀ w, c w = true → μ (f w) < μ w) :
    ∀ w, ∃ n v, whileF c f n w = some v := by
  have key : ∀ N w, μ w ≤ N → ∃ n v, whileF c f n w = some v := by
    intro N
    induction N with
    | zero =>
      intro w hw
      cases hc : c w
      · exact ⟨0, w, by simp [whileF, hc]⟩
      · exact absurd (hμ w hc) (by omega)
    | succ N ih =>
      intro w hw
      cases hc : c w
      · exact ⟨0, w, by simp [whileF, hc]⟩
      · obtain ⟨n, v, hn⟩ := ih (f w) (by have := hμ w hc; omega)
        exact ⟨n + 1, v, by simp [whileF, hc, hn]⟩
  intro w
  exact key (μ w) w le_rfl

lemma whileF_diverge {c : ℚ → Bool} {f : ℚ → ℚ} {w : ℚ}
    (hc : c w = true) (hf : f w = w) : ∀ n, whileF c f n w = none := by
  intro n
  induction n with
  | zero => simp [whileF, hc]
  | succ n ih =>
    rw [whileF, if_pos hc, hf]
    exact ih

lemma iterate_sub_apply (p : ℚ) (k : ℕ) (w : ℚ) :
    (fun x => x - p)^[k] w = w - k * p := by
  induction k generalizing w with
  | zero => simp
  | succ k ih =>
    rw [Function.iterate_succ_apply, ih]
    push_cast
    ring

/-- The first correction loop of get_width (lines 100-101): subtract the
nominal period 1/freq while the width is at least one period. -/
def foldPeriod (freq : ℚ) (n : ℕ) (w : ℚ) : Option ℚ :=
  whileF (fun x => decide (1/freq ≤ x)) (fun x => x - 1/freq) n w

/-- The second correction loop of get_width (lines 102-103): subtract
WIDTH_TOL while the width exceeds WIDTH_MAX + WIDTH_TOL. -/
def clampHigh (freq mx mn tol : ℚ) (n : ℕ) (w : ℚ) : Option ℚ :=
  whileF (fun x => decide (widthMax freq mx + widthTol freq mx mn tol < x))
    (fun x => x - widthTol freq mx mn tol) n w

/-- The third correction loop of get_width (lines 104-105): add WIDTH_TOL
while the width is below WIDTH_MIN - WIDTH_TOL. -/
def clampLow (freq mx mn tol : ℚ) (n : ℕ) (w : ℚ) : Option ℚ :=
  whileF (fun x => decide (x < widthMin freq mn - widthTol freq mx mn tol))
    (fun x => x + widthTol freq mx mn tol) n w

/-- The complete per-sample width correction applied inside get_width
(lines 100-105): the period fold followed by the two tolerance clamps. -/
def correctWidth (freq mx mn tol : ℚ) (n : ℕ) (w : ℚ) : Option ℚ :=
  (foldPeriod freq n w).bind (fun w1 =>
    (clampHigh freq mx mn tol n w1).bind (fun w2 =>
      clampLow freq mx mn tol n w2))

lemma foldPeriod_measure (p : ℚ) (hp : 0 < p) :
    ∀ x : ℚ, decide (p ≤ x) = true →
      (⌈(x - p) / p⌉).toNat < (⌈x / p⌉).toNat := by
  intro x hx
  have hx2 : p ≤ x := of_decide_eq_true hx
  have e : (x - p) / p = x / p - 1 := by
    field_simp
  have h1 : (1:ℚ) ≤ x / p := (one_le_div hp).mpr hx2
  have hceil : 1 ≤ ⌈x / p⌉ := by
    have := Int.le_ceil (x / p)
    exact_mod_cast le_trans h1 this
  rw [e, show (1:ℚ) = ((1:ℤ):ℚ) by norm_num, Int.ceil_sub_int]
  set z := ⌈x / p⌉ with hz
  omega

lemma sub_loop_measure (δ B : ℚ) (hδ : 0 < δ) :
    ∀ x : ℚ, decide (B < x) = true →
      (⌈(x - δ - B) / δ⌉).toNat < (⌈(x - B) / δ⌉).toNat := by
  intro x hx
  have hx2 : B < x := of_decide_eq_true hx
  have e : (x - δ - B) / δ = (x - B) / δ - 1 := by
    field_simp
    ring
  have h1 : (0:ℚ) < (x - B) / δ := div_pos (by linarith) hδ
  have hceil : 1 ≤ ⌈(x - B) / δ⌉ := Int.ceil_pos.mpr h1
  rw [e, show (1:ℚ) = ((1:ℤ):ℚ) by norm_num, Int.ceil_sub_int]
  set z := ⌈(x - B) / δ⌉ with hz
  omega

lemma add_loop_measure (δ B : ℚ) (hδ : 0 < δ) :
    ∀ x : ℚ, decide (x < B) = true →
      (⌈(B - (x + δ)) / δ⌉).toNat < (⌈(B - x) / δ⌉).toNat := by
  intro x hx
  have hx2 : x < B := of_decide_eq_true hx
  have e : (B - (x + δ)) / δ = (B - x) / δ - 1 := by
    field_simp
    ring
  have h1 : (0:ℚ) < (B - x) / δ := div_pos (by linarith) hδ
  have hceil : 1 ≤ ⌈(B - x) / δ⌉ := Int.ceil_pos.mpr h1
  rw [e, show (1:ℚ) = ((1:ℤ):ℚ) by norm_num, Int.ceil_sub_int]
  set z := ⌈(B - x) / δ⌉ with hz
  omega

/-- C6: for every measured pulse width w with w >= period (period =
1/freq, freq > 0), the period-fold correction of get_width terminates at
some value v < period with v congruent to w modulo the period: the
correction removes a whole number of periods only. -/
theorem foldPeriod_residue (freq w : ℚ) (hf : 0 < freq) (hw : 1/freq ≤ w) :
    ∃ n v, foldPeriod freq n w = some v ∧ v < 1/freq ∧
      ∃ k : ℕ, w = v + k * (1/freq) := by
  have hp : (0:ℚ) < 1/freq := by positivity
  obtain ⟨n, v, hn⟩ :=
    whileF_total (fun x => (⌈x / (1/freq)⌉).toNat)
      (foldPeriod_measure (1/freq) hp) w
  refine ⟨n, v, hn, ?_, ?_⟩
  · have hex := whileF_exit hn
    have : ¬(1/freq ≤ v) := of_decide_eq_false hex
    linarith [not_le.mp this]
  · obtain ⟨k, hk⟩ := whileF_steps hn
    refine ⟨k, ?_⟩
    rw [hk, iterate_sub_apply]
    ring

/-- C6 witness: the period-fold of a pulse width of two periods at 70 Hz
terminates below one period and preserves the residue. -/
theorem foldPeriod_residue_witness :
    ∃ n v, foldPeriod 70 n (1/35) = some v ∧ v < 1/70 ∧
      ∃ k : ℕ, (1/35 : ℚ) = v + k * (1/70) :=
  foldPeriod_residue 70 (1/35) (by norm_num) (by norm_num)

/-- C10: the per-sample correction of get_width terminates for every
measured width when freq > 0, max > min and tol > 0 (so WIDTH_TOL > 0);
and without that precondition it can run forever: with tol = 0 and a
width below WIDTH_MIN, the add-WIDTH_TOL clamp loop never exits, so the
correction returns none at every fuel bound. -/
theorem correctWidth_termination :
    (∀ freq mx mn tol w : ℚ, 0 < freq → mn < mx → 0 < tol →
      ∃ n v, correctWidth freq mx mn tol n w = some v) ∧
    (∀ freq mx mn w : ℚ, 0 < freq → mn ≤ mx → mn ≤ 100 →
      w < widthMin freq mn →
      ∀ n, correctWidth freq mx mn 0 n w = none) := by
  constructor
  · intro freq mx mn tol w hf hmm ht
    have hp : (0:ℚ) < 1/freq := by positivity
    have hT : 0 < widthTol freq mx mn tol := by
      unfold widthTol widthMax widthMin
      have e : (1/freq) * (mx/100) - (1/freq) * (mn/100) =
          (1/freq) * ((mx - mn)/100) := by ring
      rw [e]
      have hd : (0:ℚ) < mx - mn := by linarith
      positivity
    obtain ⟨n1, v1, h1⟩ :=
      whileF_total (fun x => (⌈x / (1/freq)⌉).toNat)
        (foldPeriod_measure (1/freq) hp) w
    obtain ⟨n2, v2, h2⟩ :=
      whileF_total
        (fun x => (⌈(x - (widthMax freq mx + widthTol freq mx mn tol)) /
          widthTol freq mx mn tol⌉).toNat)
        (sub_loop_measure (widthTol freq mx mn tol)
          (widthMax freq mx + widthTol freq mx mn tol) hT) v1
    obtain ⟨n3, v3, h3⟩ :=
      whileF_total
        (fun x => (⌈((widthMin freq mn - widthTol freq mx mn tol) - x) /
          widthTol freq mx mn tol⌉).toNat)
        (add_loop_measure (widthTol freq mx mn tol)
          (widthMin freq mn - widthTol freq mx mn tol) hT) v2
    refine ⟨n1 + n2 + n3, v3, ?_⟩
    have e1 : foldPeriod freq (n1 + n2 + n3) w = some v1 :=
      whileF_mono n1 (show n1 ≤ n1 + n2 + n3 by omega) h1
    have e2 : clampHigh freq mx mn tol (n1 + n2 + n3) v1 = some v2 :=
      whileF_mono n2 (show n2 ≤ n1 + n2 + n3 by omega) h2
    have e3 : clampLow freq mx mn tol (n1 + n2 + n3) v2 = some v3 :=
      whileF_mono n3 (show n3 ≤ n1 + n2 + n3 by omega) h3
    rw [correctWidth, e1]
    show (clampHigh freq mx mn tol (n1 + n2 + n3) v1).bind
      (fun w2 => clampLow freq mx mn tol (n1 + n2 + n3) w2) = some v3
    rw [e2]
    show clampLow freq mx mn tol (n1 + n2 + n3) v2 = some v3
    exact e3
  · intro freq mx mn w hf hmm h100 hw
    have hp : (0:ℚ) < 1/freq := by positivity
    have hT0 : widthTol freq mx mn 0 = 0 := by
      unfold widthTol
      norm_num
    have hWM : widthMin freq mn ≤ widthMax freq mx := by
      unfold widthMin widthMax
      apply mul_le_mul_of_nonneg_left _ hp.le
      linarith
    have hwP : w < 1/freq := by
      have : widthMin freq mn ≤ 1/freq := by
        unfold widthMin
        calc (1/freq) * (mn/100) ≤ (1/freq) * 1 :=
          mul_le_mul_of_nonneg_left (by linarith) hp.le
        _ = 1/freq := mul_one _
      linarith
    intro n
    have c1 : decide ((1:ℚ)/freq ≤ w) = false :=
      decide_eq_false (not_le.mpr hwP)
    have c2 : decide (widthMax freq mx + widthTol freq mx mn 0 < w) = false :=
      decide_eq_false (not_lt.mpr (by rw [hT0]; linarith))
    have c3 : decide (w < widthMin freq mn - widthTol freq mx mn 0) = true :=
      decide_eq_true (by rw [hT0]; linarith)
    have hfw : w + widthTol freq mx mn 0 = w := by rw [hT0]; ring
    have hA : foldPeriod freq n w = some w := whileF_of_false c1 n
    have hB : clampHigh freq mx mn 0 n w = some w := whileF_of_false c2 n
    have hC : clampLow freq mx mn 0 n w = none :=
      whileF_diverge
        (c := fun x => decide (x < widthMin freq mn - widthTol freq mx mn 0))
        (f := fun x => x + widthTol freq mx mn 0) (w := w) c3 hfw n
    rw [correctWidth, hA]
    show (clampHigh freq mx mn 0 n w).bind
      (fun w2 => clampLow freq mx mn 0 n w2) = none
    rw [hB]
    show clampLow freq mx mn 0 n w = none
    exact hC

/-- C10 witness: at the main-script configuration the correction of the
width 0 terminates with tol = 25, and with tol = 0 the same width (which
lies below WIDTH_MIN) makes the correction return none at fuel 5. -/
theorem correctWidth_termination_witness :
    (∃ n v, correctWidth 70 (141/10) (69/10) 25 n 0 = some v) ∧
    correctWidth 70 (141/10) (69/10) 0 5 0 = none :=
  ⟨correctWidth_termination.1 70 (141/10) (69/10) 25 0
      (by norm_num) (by norm_num) (by norm_num),
   correctWidth_termination.2 70 (141/10) (69/10) 0
      (by norm_num) (by norm_num) (by norm_num)
      (by norm_num [widthMin]) 5⟩

/-!
## Actuator controllers (lines 215-326)

Pin writes are recorded as an ordered trace of (pin name, level) pairs.
Python list indexing, which raises IndexError when out of range (after
resolving negative indices from the end), is embedded as pyGet returning
none; move_linear propagates such a failure as Except.error.  The blocking
potentiometer polling loops of move_linear, which read the ADC twice per
iteration (the stated driver quirk) and keep the second reading, are
embedded fuel-indexed like the correction loops above.
-/

/-- Python list indexing: resolve a negative index from the end, then
return none (IndexError) when the index is out of range. -/
def pyGet {α : Type} (l : List α) (i : ℤ) : Option α :=
  let j : ℤ := if i < 0 then (l.length : ℤ) + i else i
  if 0 ≤ j then l[j.toNat]? else none

/-- The drive loop of move_linear (lines 243-244): one write per output
pin, whose level is the transposed lookup LA_COMMANDS[col][cmd] exactly as
in the source; the first out-of-range lookup aborts the call (and in the
source it occurs before the first write of the loop iteration). -/
def driveWritesAux (out : List String) (cmd : ℤ) :
    List ℕ → Option (List (String × PinLevel))
  | [] => some []
  | col :: rest =>
    match (pyGet LA_COMMANDS (col : ℤ)).bind (fun row => pyGet row cmd) with
    | none => none
    | some l =>
      (driveWritesAux out cmd rest).map (fun ws => (out.getD col noPin, l) :: ws)

/-- The trace of the drive loop of move_linear over all output pins. -/
def driveWrites (out : List String) (cmd : ℤ) :
    Option (List (String × PinLevel)) :=
  driveWritesAux out cmd (List.range out.length)

/-- The final hold loop of move_linear (lines 259-260): write LOW to every
output pin. -/
def holdWrites (out : List String) : List (String × PinLevel) :=
  (List.range out.length).map (fun i => (out.getD i noPin, PinLevel.low))

/-- A feedback-polling loop of move_linear (lines 248-256): while the
condition holds on the last potentiometer value, read the ADC twice
(stream indices r and r+1) and keep the second reading.  Fuel-indexed;
none means the loop was still running when the fuel ran out. -/
def potLoop (c : ℚ → Bool) (pot : ℕ → ℚ) : ℕ → ℚ → ℕ → Option ℚ
  | _, pos, 0 => if c pos then none else some pos
  | r, pos, fuel + 1 =>
    if c pos then potLoop c pot (r + 2) (pot (r + 1)) fuel else some pos

/-- How an embedded move_linear call can fail to return: an IndexError
from a command-table lookup, or a feedback loop still running at the fuel
bound. -/
inductive Stop where
  | indexError
  | stall
deriving DecidableEq, Repr

/-- Embedding of move_linear (lines 215-260).  The potentiometer position
starts at 0.0; cmd = 2 polls while the position exceeds
LOWER_LIM = 1 - stroke/LA_MAX_STROKE, cmd = 0 polls while it is below
UPPER_LIM = 1.0; the final hold writes are unconditional in the source and
are reached whenever no lookup failed and any polling loop exited. -/
def move_linear (cmd : ℤ) (out : List String) (pot : ℕ → ℚ) (stroke : ℚ)
    (fuel : ℕ) : Except Stop (List (String × PinLevel)) :=
  let upper : ℚ := 1
  let lower : ℚ := 1 - stroke / LA_MAX_STROKE
  if 0 ≤ cmd then
    match driveWrites out cmd with
    | none => Except.error Stop.indexError
    | some ws =>
      if cmd = 2 then
        match potLoop (fun pos => decide (lower < pos)) pot 0 0 fuel with
        | none => Except.error Stop.stall
        | some _ => Except.ok (ws ++ holdWrites out)
      else if cmd = 0 then
        match potLoop (fun pos => decide (pos < upper)) pot 0 0 fuel with
        | none => Except.error Stop.stall
        | some _ => Except.ok (ws ++ holdWrites out)
      else Except.ok (ws ++ holdWrites out)
  else Except.ok (holdWrites out)

/-- Python int(): truncation toward zero. -/
def pyInt (q : ℚ) : ℤ := if 0 ≤ q then ⌊q⌋ else ⌈q⌉

/-- Concatenation of n copies of a trace, for the step burst of
move_carousel. -/
def repeatTrace (t : List (String × PinLevel)) : ℕ → List (String × PinLevel)
  | 0 => []
  | n + 1 => t ++ repeatTrace t n

/-- Embedding of move_carousel (lines 262-296): on cmd = 2 it issues
int(((1/gripper)*360)/CS_STEP_ANGLE) single-step bursts, each writing the
CS_COMMANDS[cmd] row to the pins and then pulling the step pin low;
otherwise it writes LOW to every pin. -/
def move_carousel (cmd : ℤ) (out : List String) (gripper : ℚ) :
    List (String × PinLevel) :=
  let path_steps : ℚ := ((1/gripper) * 360) / CS_STEP_ANGLE
  if cmd = 2 then
    repeatTrace
      ((List.range out.length).map (fun col =>
        (out.getD col noPin, (CS_COMMANDS.getD cmd.toNat []).getD col PinLevel.low)) ++
        [(out.getD 1 noPin, PinLevel.low)])
      (pyInt path_steps).toNat
  else
    (List.range out.length).map (fun i => (out.getD i noPin, PinLevel.low))

/-- Embedding of move_shoulder (lines 298-326).  On cmd = 2 or cmd = 0 it
writes the SS_COMMANDS[cmd] row to the pins, then pulls the step pin low;
otherwise it writes LOW to the step pin.  The second component is the
function's return value: the Python body has no return statement, so every
path returns None, although the docstring promises the next phase index. -/
def move_shoulder (cmd : ℤ) (out : List String) :
    List (String × PinLevel) × Option ℤ :=
  if cmd = 2 ∨ cmd = 0 then
    ((List.range out.length).map (fun col =>
        (out.getD col noPin, (SS_COMMANDS.getD cmd.toNat []).getD col PinLevel.low)) ++
      [(out.getD 1 noPin, PinLevel.low)], none)
  else ([(out.getD 1 noPin, PinLevel.low)], none)

/-- True when every write of a trace drives its pin LOW. -/
def allLow (tr : List (String × PinLevel)) : Bool :=
  tr.all (fun w => decide (w.2 = PinLevel.low))

lemma allLow_map_low (l : List ℕ) (f : ℕ → String) :
    allLow (l.map (fun i => (f i, PinLevel.low))) = true := by
  simp [allLow, List.all_map, Function.comp]

lemma potLoop_terminates (c : ℚ → Bool) (pot : ℕ → ℚ) :
    ∀ (k r : ℕ) (pos : ℚ), c (pot (r + 2 * k + 1)) = false →
      ∃ f v, potLoop c pot r pos f = some v := by
  intro k
  induction k with
  | zero =>
    intro r pos h
    cases hc : c pos
    · exact ⟨0, pos, by simp [potLoop, hc]⟩
    · refine ⟨1, pot (r + 1), ?_⟩
      have h2 : c (pot (r + 1)) = false := by
        rw [show r + 1 = r + 2 * 0 + 1 by omega]
        exact h
      simp [potLoop, hc, h2]
  | succ k ih =>
    intro r pos h
    cases hc : c pos
    · exact ⟨0, pos, by simp [potLoop, hc]⟩
    · obtain ⟨f, v, hf⟩ := ih (r + 2) (pot (r + 1)) (by
        rw [show r + 2 + 2 * k + 1 = r + 2 * (k + 1) + 1 by omega]
        exact h)
      refine ⟨f + 1, v, ?_⟩
      rw [potLoop, if_pos hc]
      exact hf

/-- C4: move_shoulder maintains no phase-state index and returns none on
every path, so the claimed persisted index into an 8-row half-step table
(with advance 3 to 4 and retreat 0 to 7, returned to the caller) does not
exist in the code: the body drives DIR/STEP from the 3-row SS_COMMANDS
table and falls off the end, while its own docstring documents an integer
phase-sequence return value. -/
theorem move_shoulder_no_phase_state (cmd : ℤ) (out : List String) :
    (move_shoulder cmd out).2 = none := by
  unfold move_shoulder
  split <;> rfl

/-- C5: for trend = Max (2) with the two direction pins, move_linear does
NOT write the retract row: the transposed lookup LA_COMMANDS[col][cmd]
reads index 2 of a 2-element row and raises IndexError for every fuel, so
the call aborts with no writes at all.  For trend = Min (0) it behaves as
claimed: the extend row [HIGH, LOW] is written, the potentiometer is
polled until a (second) reading reaches UPPER_LIM = 1.0, and both outputs
are then forced low. -/
theorem move_linear_extend_retract (pA pB : String) (pot : ℕ → ℚ)
    (stroke : ℚ) :
    (∀ fuel, move_linear 2 [pA, pB] pot stroke fuel =
      Except.error Stop.indexError) ∧
    (∀ k : ℕ, 1 ≤ pot (2 * k + 1) →
      ∃ fuel, move_linear 0 [pA, pB] pot stroke fuel =
        Except.ok [(pA, PinLevel.high), (pB, PinLevel.low),
          (pA, PinLevel.low), (pB, PinLevel.low)]) := by
  constructor
  · intro fuel
    have hd : driveWrites [pA, pB] 2 = none := rfl
    simp [move_linear, hd]
  · intro k hk
    have hd : driveWrites [pA, pB] 0 =
        some [(pA, PinLevel.high), (pB, PinLevel.low)] := rfl
    have hcf : (fun pos => decide (pos < (1:ℚ))) (pot (0 + 2 * k + 1)) = false := by
      have : ¬(pot (0 + 2 * k + 1) < 1) := by
        rw [show 0 + 2 * k + 1 = 2 * k + 1 by omega]
        exact not_lt.mpr hk
      simpa using this
    obtain ⟨f, v, hf⟩ :=
      potLoop_terminates (fun pos => decide (pos < (1:ℚ))) pot k 0 0 hcf
    refine ⟨f, ?_⟩
    simp [move_linear, hd, hf, holdWrites]
    rfl

/-- C5 witness: the two conjuncts at the concrete pins of the main script,
a potentiometer stream constantly at 1.0, stroke 1.5 and fuel 0. -/
theorem move_linear_extend_retract_witness :
    move_linear 2 ["P8_5", "P8_7"] (fun _ => 1) (3/2) 0 =
      Except.error Stop.indexError ∧
    ∃ fuel, move_linear 0 ["P8_5", "P8_7"] (fun _ => 1) (3/2) fuel =
      Except.ok [("P8_5", PinLevel.high), ("P8_7", PinLevel.low),
        ("P8_5", PinLevel.low), ("P8_7", PinLevel.low)] :=
  ⟨(move_linear_extend_retract "P8_5" "P8_7" (fun _ => 1) (3/2)).1 0,
   (move_linear_extend_retract "P8_5" "P8_7" (fun _ => 1) (3/2)).2 0
     (by norm_num)⟩

/-- C8: an Invalid command (-1) never drives any pin HIGH: move_linear
completes with only the unconditional hold writes (all LOW), and the
Invalid branches of move_carousel and move_shoulder write only LOW
levels. -/
theorem invalid_command_all_writes_low (out : List String) (pot : ℕ → ℚ)
    (stroke : ℚ) (fuel : ℕ) (gripper : ℚ) :
    (∃ tr, move_linear (-1) out pot stroke fuel = Except.ok tr ∧
      allLow tr = true) ∧
    allLow (move_carousel (-1) out gripper) = true ∧
    allLow ((move_shoulder (-1) out).1) = true := by
  refine ⟨⟨holdWrites out, rfl, allLow_map_low _ _⟩, ?_, ?_⟩
  · show allLow ((List.range out.length).map
      (fun i => (out.getD i noPin, PinLevel.low))) = true
    exact allLow_map_low _ _
  · show allLow [(out.getD 1 noPin, PinLevel.low)] = true
    simp [allLow]

/-- C9: contrary to the claim that every call to move_linear ends by
writing LOW to both output pins for every trend value, at trend = Max (2)
the transposed command-table lookup aborts the call with IndexError before
the unconditional final hold loop is reached, so no LOW writes happen. -/
theorem move_linear_max_aborts_before_hold :
    move_linear 2 ["P8_5", "P8_7"] (fun _ => 0) (3/2) 100 =
      Except.error Stop.indexError := by
  rfl

end SRS
